import Mathlib

/-!
Verification of the TypeWriterCLI screenplay-to-HTML core (src/html.rs).

Strings are modelled as `List Char`.  The regexes of the source use the
default Unicode classes; all theorems and witnesses here work on ASCII
text, so `\w` and `\s` are modelled on their ASCII ranges (the negated
class `[^a-z]` is exactly ASCII in the source as well).  Machine integers
are modelled as `Nat` with explicit wrap-around: the scene counter is a
`u32` (wrap at `2^32`) and the padding count is a `usize` subtraction
(wrap at `2^64`, the release-mode semantics of the overflowing `4 - len`).
-/

set_option maxHeartbeats 1000000

abbrev Str := List Char

/-- ASCII range of the regex class `[a-z]` (also used by `str::to_uppercase`
on ASCII input). -/
def isLowerAZ (c : Char) : Bool := 'a' ≤ c && c ≤ 'z'

/-- ASCII range of the regex class `[A-Z]`. -/
def isUpperAZ (c : Char) : Bool := 'A' ≤ c && c ≤ 'Z'

/-- Whitespace recognised by `str::trim`, `char::is_whitespace` and the
regex class `\s`, restricted to ASCII. -/
def isWS (c : Char) : Bool :=
  c == ' ' || c == '\t' || c == '\n' || c == '\r' || c == Char.ofNat 11 || c == Char.ofNat 12

/-- The regex class `\w`, restricted to ASCII: letters, digits, underscore. -/
def isWordChar (c : Char) : Bool := c.isAlpha || c.isDigit || c == '_'

/-- `str::trim` (both ends). -/
def trimStr (s : Str) : Str :=
  ((s.dropWhile isWS).reverse.dropWhile isWS).reverse

/-- The part of `s` before the first occurrence of `pat`
(`s.split(pat).next().unwrap()`); the whole of `s` when `pat` is absent. -/
def splitFirst (pat : Str) : Str → Str
  | [] => []
  | c :: t => if pat.isPrefixOf (c :: t) then [] else c :: splitFirst pat t

/-- `str::replace(pat, rep)`: replace every non-overlapping occurrence of
`pat`, scanning left to right.  Fuel-based so that it is structurally
recursive (fuel `s.length` always suffices: each step consumes at least
one character for the non-empty patterns used by the source). -/
def replaceAllGo (pat rep : Str) : Nat → Str → Str
  | _, [] => []
  | 0, s => s
  | fuel + 1, c :: t =>
    if pat.isPrefixOf (c :: t) then rep ++ replaceAllGo pat rep fuel ((c :: t).drop pat.length)
    else c :: replaceAllGo pat rep fuel t

def replaceAll (pat rep s : Str) : Str := replaceAllGo pat rep s.length s

/-- `Vec<&str>::join(" ")`. -/
def joinSpace : List Str → Str
  | [] => []
  | [x] => x
  | x :: xs => x ++ ' ' :: joinSpace xs

/-- One decimal digit as a character. -/
def digitChar (n : Nat) : Char := Char.ofNat (48 + n)

/-- `u32::to_string`, fuel-based for structural recursion (`n + 1` fuel
always suffices since the recursion divides by ten). -/
def natToStrGo : Nat → Nat → Str
  | 0, _ => []
  | fuel + 1, n =>
    if n < 10 then [digitChar n] else natToStrGo fuel (n / 10) ++ [digitChar (n % 10)]

def natToStr (n : Nat) : Str := natToStrGo (n + 1) n

/-- `str::to_uppercase` / `to_ascii_uppercase` on ASCII text. -/
def upperStr (s : Str) : Str := s.map Char.toUpper

/-- `u32` modulus. -/
def u32Mod : Nat := 4294967296

/-- `usize` modulus. -/
def usizeMod : Nat := 18446744073709551616

/-- Wrapping `usize` subtraction `a - b` (release-mode semantics of the
overflowing subtraction in the source), for `b ≤ usizeMod`. -/
def usizeWrapSub (a b : Nat) : Nat := (a + usizeMod - b) % usizeMod

/-! ## Line preprocessing (`trim_ignored` and the enumerate/filter pipeline) -/

/-- `str::contains(pat)`: substring search. -/
def containsSub (pat : Str) : Str → Bool
  | [] => pat.isEmpty
  | c :: t => pat.isPrefixOf (c :: t) || containsSub pat t

/-- String part of `trim_ignored`: strip an inline comment at the first
literal `"* "` and trim. -/
def processVal (l : Str) : Str :=
  if containsSub "* ".toList l then trimStr (splitFirst "* ".toList l) else trimStr l

/-- `trim_ignored((num, line))`. -/
def trim_ignored (p : Nat × Str) : Nat × Str := (p.1, processVal p.2)

/-- `.enumerate()` starting at `i` (the source starts at 0). -/
def enumLines (i : Nat) : List Str → List (Nat × Str)
  | [] => []
  | l :: t => (i, l) :: enumLines (i + 1) t

/-- The preprocessed line list built in `Segments::new`:
enumerate, `trim_ignored`, drop empty lines. -/
def preprocess (raw : List Str) : List (Nat × Str) :=
  ((enumLines 0 raw).map trim_ignored).filter (fun p => !p.2.isEmpty)

/-! ## Segmenter (`Segments`) -/

/-- The `***` sentinel. -/
def sentinel : Str := "***".toList

/-- Iterator state of `Segments`: remaining preprocessed lines and the
one-shot termination flag. -/
structure SegState where
  lines : List (Nat × Str)
  term : Bool
deriving DecidableEq

/-- `str::strip_suffix(c)`. -/
def stripSuffixChar (c : Char) (s : Str) : Option Str :=
  match s.reverse with
  | [] => none
  | d :: t => if d == c then some t.reverse else none

/-- The continuation loop of `next_whole`: `val` is the current line's
text, `rest` the unconsumed lines, `text` the fragments recorded so far.
Returns the successor state and the yielded segment, mirroring the
source's `while let Some(strip) = val.strip_suffix('\\')` loop (the
`None` case models the `?` on an exhausted iterator: the incomplete
segment is dropped). -/
def wholeLoop (line : Nat) (val : Str) (rest : List (Nat × Str)) (text : List Str) :
    SegState × Option (Nat × List Str) :=
  match stripSuffixChar '\\' val with
  | none => (⟨rest, false⟩, some (line + 1, text ++ [val]))
  | some strip =>
    let text2 := text ++ [trimStr strip]
    match rest with
    | [] => (⟨[], false⟩, none)
    | (_, v2) :: rest2 =>
      if v2 = sentinel then (⟨rest2, true⟩, some (line + 1, text2))
      else wholeLoop line v2 rest2 text2

/-- `Segments::next_whole`. -/
def nextWhole (s : SegState) : SegState × Option (Nat × List Str) :=
  if s.term then (s, none)
  else
    match s.lines with
    | [] => (⟨[], false⟩, none)
    | (line, val) :: rest =>
      if val = sentinel then (⟨rest, false⟩, none)
      else wholeLoop line val rest []

/-- Repeatedly pull whole segments until the stream yields `None`,
collecting what a single forward pass (the only use in the source)
observes.  Fuel-based; `lines.length + 1` fuel always suffices because a
productive `nextWhole` consumes at least one line. -/
def runSegs : Nat → SegState → List (Nat × List Str)
  | 0, _ => []
  | fuel + 1, s =>
    match nextWhole s with
    | (s2, some seg) => seg :: runSegs fuel s2
    | (_, none) => []

/-- All whole segments yielded from a preprocessed line list. -/
def segments (lines : List (Nat × Str)) : List (Nat × List Str) :=
  runSegs (lines.length + 1) ⟨lines, false⟩

/-- `str::split_once(char::is_whitespace)`. -/
def splitOnceWS : Str → Option (Str × Str)
  | [] => none
  | c :: t => if isWS c then some ([], t) else (splitOnceWS t).map (fun p => (c :: p.1, p.2))

/-- A logical segment: starting line (1-based), mode token, text fragments. -/
structure Segment where
  line : Nat
  mode : Str
  text : List Str
deriving DecidableEq

/-- `<Segments as Iterator>::next` applied to an already-pulled whole
segment: split the first fragment into mode and remainder.  When the
first fragment has no whitespace, the source builds
`Segment{ mode: first, text: Vec::new() }`, discarding any remaining
continuation fragments.  `none` models the panic of `text.remove(0)` on
an empty fragment list (proved unreachable below). -/
def segNext (p : Nat × List Str) : Option Segment :=
  match p.2 with
  | [] => none
  | first :: t =>
    match splitOnceWS first with
    | some (mode, rest) => some ⟨p.1, mode, trimStr rest :: t⟩
    | none => some ⟨p.1, first, []⟩

/-! ## Pattern matchers

Hand-compiled deciders for the four regexes of `get_line`, with the
`is_match` semantics of the `regex` crate (a match may start anywhere). -/

/-- Helper for `PAT_SCENE`: after the `INT. `/`EXT. ` marker, is there a
decomposition `a ++ " - " ++ b` with `a` a non-empty run free of ASCII
lowercase and `b` starting with a non-lowercase character?
`sceneAfterA cs` checks it with `a`'s first character already consumed:
either ` - ` plus a non-lowercase character follows here, or the current
character is non-lowercase and the split point lies further right. -/
def sceneAfterA : Str → Bool
  | [] => false
  | c :: rest =>
    (if (" - ".toList).isPrefixOf (c :: rest) then
       match (c :: rest).drop 3 with
       | [] => false
       | d :: _ => !isLowerAZ d
     else false)
    || (!isLowerAZ c && sceneAfterA rest)

/-- `PAT_SCENE` matching at the start of `cs`:
`(INT\.|EXT\.) [^a-z]+ - [^a-z]+`.  The `[^a-z]+` run before `" - "` is
one-or-more, so its first character is consumed (and checked
non-lowercase) here before handing over to `sceneAfterA`. -/
def sceneMatchAt (cs : Str) : Bool :=
  (("INT. ".toList).isPrefixOf cs || ("EXT. ".toList).isPrefixOf cs) &&
    (match cs.drop 5 with
     | [] => false
     | c :: rest => !isLowerAZ c && sceneAfterA rest)

/-- `PAT_SCENE.is_match`: a match starting at any position. -/
def sceneMatch : Str → Bool
  | [] => false
  | c :: t => sceneMatchAt (c :: t) || sceneMatch t

/-- `PAT_HEAD.is_match` for `^[^a-z]+$`: non-empty and free of ASCII
lowercase (anchored, so it is a whole-string test). -/
def headMatch (cs : Str) : Bool := !cs.isEmpty && cs.all (fun c => !isLowerAZ c)

/-- Helper for `PAT_SPEECH`: the optional capitalised parenthetical
`\([A-Z][^\)]*\) ` followed by at least one character other than `(`
(the mandatory start of `[^\(]+`). -/
def speechParen (cs : Str) : Bool :=
  match cs with
  | '(' :: c :: rest =>
    isUpperAZ c &&
      (let body := rest.takeWhile (fun d => !(d == ')'))
       match rest.drop body.length with
       | ')' :: ' ' :: d :: _ => !(d == '(')
       | _ => false)
  | _ => false

/-- Helper for `PAT_SPEECH`: the part after the colon,
`\s+(?:(\([A-Z][^\)]*\) )?([^\(]+))+`.  A match exists iff one
whitespace character is followed by either a non-`(` character (one
repetition with the optional group absent suffices, and further
whitespace is itself not `(`) or a full capitalised parenthetical. -/
def afterColon (cs : Str) : Bool :=
  match cs with
  | [] => false
  | c :: rest =>
    isWS c &&
      (match rest with
       | [] => false
       | d :: _ => !(d == '(') || speechParen rest)

/-- Helper for `PAT_SPEECH`: after the maximal `\w+` run, the optional
`(O.S.)`/`(V.O.)` qualifier and the colon. -/
def speechAfterName (cs : Str) : Bool :=
  match cs with
  | ':' :: rest => afterColon rest
  | ' ' :: '(' :: 'O' :: '.' :: 'S' :: '.' :: ')' :: ':' :: rest => afterColon rest
  | ' ' :: '(' :: 'V' :: '.' :: 'O' :: '.' :: ')' :: ':' :: rest => afterColon rest
  | _ => false

/-- `PAT_SPEECH` matching at the start of `cs`: a non-empty `\w+` run
(maximal, since the next pattern characters `(`/`:`/` ` are not word
characters) followed by `speechAfterName`. -/
def speechMatchAt (cs : Str) : Bool :=
  let w := (cs.takeWhile isWordChar).length
  w != 0 && speechAfterName (cs.drop w)

/-- `PAT_SPEECH.is_match`: a match starting at any position. -/
def speechIsMatch : Str → Bool
  | [] => false
  | c :: t => speechMatchAt (c :: t) || speechIsMatch t

/-! ### `PAT_EXTRACT` capture iteration

`\s*(\([^\)]+\))?((?:\s+[^\(]+)+)` with the leftmost-first greedy
backtracking of the `regex` crate, hand-compiled.  Group 2's repetition
collapses to a single step: after the maximal whitespace run and the
maximal `[^\(]+` run the scan sits on `(` or the end, where `\s+`
cannot restart. -/

/-- Parse group 1, `\([^\)]+\)`: returns the captured text (with
parentheses) and the remainder. -/
def g1parse (cs : Str) : Option (Str × Str) :=
  match cs with
  | '(' :: rest =>
    let body := rest.takeWhile (fun d => !(d == ')'))
    if body.isEmpty then none
    else
      match rest.drop body.length with
      | ')' :: after => some ('(' :: body ++ [')'], after)
      | _ => none
  | _ => none

/-- Parse group 2, `(?:\s+[^\(]+)+`, greedily: a non-empty whitespace
run, then the maximal non-`(` run; if that run is empty the final
whitespace character is consumed by `[^\(]+` instead, which needs the
whitespace run to have length at least two.  Returns capture and rest. -/
def g2parse (cs : Str) : Option (Str × Str) :=
  let w := (cs.takeWhile isWS).length
  if w == 0 then none
  else
    let rest := cs.drop w
    let t := (rest.takeWhile (fun d => !(d == '('))).length
    if t == 0 then
      if 2 ≤ w then some (cs.take w, rest) else none
    else some (cs.take (w + t), cs.drop (w + t))

/-- One attempt of `PAT_EXTRACT` at the start of `cs`: `\s*` tries the
longest whitespace prefix first, and at each length the optional group 1
is preferred present. -/
def extractAttempt (cs : Str) : Nat → Option (Option Str × Str × Str)
  | 0 =>
    (match g1parse cs with
     | some (g1, r) =>
       match g2parse r with
       | some (g2, rest) => some (some g1, g2, rest)
       | none => (g2parse cs).map (fun p => (none, p.1, p.2))
     | none => (g2parse cs).map (fun p => (none, p.1, p.2)))
  | k + 1 =>
    (let q := cs.drop (k + 1)
     match
       (match g1parse q with
        | some (g1, r) =>
          match g2parse r with
          | some (g2, rest) => some (some g1, g2, rest)
          | none => (g2parse q).map (fun p => (none, p.1, p.2))
        | none => (g2parse q).map (fun p => (none, p.1, p.2))) with
     | some m => some m
     | none => extractAttempt cs k)

/-- Leftmost match of `PAT_EXTRACT` in `cs`: attempt at each start
position from the left; at each position `\s*` backtracks from the
maximal whitespace run down to zero. -/
def extractFind : Str → Option (Option Str × Str × Str)
  | [] =>
    (match g2parse [] with
     | some (g2, rest) => some (none, g2, rest)
     | none => none)
  | c :: t =>
    match extractAttempt (c :: t) ((c :: t).takeWhile isWS).length with
    | some m => some m
    | none => extractFind t

/-- `captures_iter` of `PAT_EXTRACT`: all successive non-overlapping
matches, resuming after each match's end.  Fuel-based (`length + 1`
suffices: every match consumes at least one character). -/
def extractIterGo : Nat → Str → List (Option Str × Str)
  | 0, _ => []
  | fuel + 1, cs =>
    match extractFind cs with
    | none => []
    | some (g1, g2, rest) => (g1, g2) :: extractIterGo fuel rest

def extractIter (cs : Str) : List (Option Str × Str) := extractIterGo (cs.length + 1) cs

/-! ## Classifier/renderer (`get_line`) -/

/-- Document context: `u32` scene counter, title, subtitle. -/
structure Context where
  scene : Nat
  title : Str
  subtitle : Str
deriving DecidableEq

/-- The error type of the conversion (`HtmlError`).  The `IoError` and
`FormatError` variants cannot arise in the modelled core: writing to a
`String` is infallible, and file access is outside the core.  `Unknown`
is also used here to model the panics (`unwrap`/`remove(0)`) that are
proved unreachable. -/
inductive HtmlError where
  | SyntaxError (line : Nat) (expected : Str) (after : Str)
  | Unknown
deriving DecidableEq

/-- ASCII apostrophe, for the quoted mode name in error messages. -/
def squote : Char := Char.ofNat 39

/-- `format!("mode declaration '{mode}'")`. -/
def modeDeclMsg (mode : Str) : Str :=
  "mode declaration ".toList ++ squote :: mode ++ [squote]

/-- The joined, placeholder-substituted text of a segment:
`text.join(" ").replace("$title", ..).replace("$subtitle", ..)`. -/
def renderedText (text : List Str) (ctx : Context) : Str :=
  replaceAll "$subtitle".toList ctx.subtitle
    (replaceAll "$title".toList ctx.title (joinSpace text))

/-- Number of filler glyphs: `let count = 4 - ctx.scene.to_string().len()`,
a `usize` subtraction (wrapping). -/
def scenePadCount (n : Nat) : Nat := usizeWrapSub 4 (natToStr n).length

/-- `vec!["&nbsp;"; count].join("")`. -/
def scenePad (n : Nat) : Str := (List.replicate (scenePadCount n) "&nbsp;".toList).flatten

/-- A rendered scene heading fragment. -/
def sceneLine (n : Nat) (body : Str) : Str :=
  "<div class=\"scene\"><h1>".toList ++ scenePad n ++ natToStr n ++ ' ' :: body
    ++ "</h1></div>\n".toList

/-- A simple one-line fragment `<div class="CLS">BODY</div>\n`. -/
def divLine (cls body : Str) : Str :=
  "<div class=\"".toList ++ cls ++ "\">".toList ++ body ++ "</div>\n".toList

/-- One emitted block of the named-speech loop: parenthetical if the
capture starts with `(`, speech otherwise (each `writeln!` ends in a
newline). -/
def capDiv (cap : Str) : Str :=
  match cap with
  | '(' :: _ => divLine "parens".toList (trimStr cap)
  | _ => divLine "speech".toList (trimStr cap)

/-- The fragments emitted for one `PAT_EXTRACT` capture pair: group 1
(when present) then group 2, in order. -/
def capPairDivs (p : Option Str × Str) : Str :=
  (match p.1 with
   | some g => capDiv g
   | none => []) ++ capDiv p.2

/-- `str::split_once(':')`. -/
def splitOnceColon : Str → Option (Str × Str)
  | [] => none
  | c :: t => if c == ':' then some ([], t) else (splitOnceColon t).map (fun p => (c :: p.1, p.2))

/-- The named-speech rendering of the implicit fallback: name line then
the alternating parenthetical/speech fragments of `captures_iter`. -/
def speechRender (whole : Str) : Except HtmlError Str :=
  match splitOnceColon whole with
  | none => .error .Unknown
  | some (name, content) =>
    .ok (divLine "name".toList (upperStr name) ++ ((extractIter content).map capPairDivs).flatten)

/-- The body of `get_line` after the join/substitution step: the `match`
over the mode keyword, in source order, followed by the implicit
fallback chain scene → header → speech → failure. -/
def classify (line : Nat) (mode : Str) (text : Str) (ctx : Context) :
    Context × Except HtmlError Str :=
  if mode == "montage".toList && text.isEmpty then
    (ctx, .ok (divLine "header".toList "BEGIN MONTAGE:".toList))
  else if mode == "mon-end".toList && text.isEmpty then
    (ctx, .ok (divLine "header".toList "END MONTAGE.".toList))
  else if mode == "TODO".toList && text.isEmpty then
    (ctx, .ok (divLine "header".toList "TODO ==============================".toList))
  else if mode == "TODO".toList && !text.isEmpty then
    (ctx, .ok (divLine "header".toList ("TODO == ".toList ++ upperStr text)))
  else if mode == "direct".toList && !text.isEmpty then
    (ctx, .ok (divLine "direct".toList text))
  else if mode == "parens".toList && !text.isEmpty then
    (ctx, .ok (divLine "parens".toList ('(' :: text ++ [')'])))
  else if mode == "speech".toList && !text.isEmpty then
    (ctx, .ok (divLine "speech".toList text))
  else if mode == "subhead".toList && !text.isEmpty then
    (ctx, .ok (divLine "header".toList ("<h2>".toList ++ upperStr text ++ "</h2>".toList)))
  else if mode == "trans".toList && !text.isEmpty then
    (ctx, .ok (divLine "trans".toList (upperStr text)))
  else if mode == "chyron".toList && !text.isEmpty then
    (ctx, .ok (divLine "direct".toList ("CHYRON: ".toList ++ text)))
  else if mode == "scene".toList && (!text.isEmpty && sceneMatch text) then
    let n := (ctx.scene + 1) % u32Mod
    ({ ctx with scene := n }, .ok (sceneLine n (upperStr text)))
  else if mode == "montage".toList || mode == "mon-end".toList then
    (ctx, .error (.SyntaxError line "newline".toList (modeDeclMsg mode)))
  else if mode == "direct".toList || mode == "parens".toList || mode == "speech".toList
      || mode == "subhead".toList || mode == "trans".toList || mode == "chyron".toList then
    (ctx, .error (.SyntaxError line "content".toList (modeDeclMsg mode)))
  else if mode == "scene".toList then
    (ctx, .error (.SyntaxError line "scene heading".toList "scene declaration".toList))
  else
    let whole := trimStr (mode ++ ' ' :: text)
    if sceneMatch whole then
      let n := (ctx.scene + 1) % u32Mod
      ({ ctx with scene := n }, .ok (sceneLine n whole))
    else if headMatch whole then
      (ctx, .ok ("<div class=\"header\">".toList ++ whole ++ "</div>".toList))
    else if speechIsMatch whole then
      (ctx, speechRender whole)
    else
      (ctx, .error (.SyntaxError line "mode declaration".toList "new line".toList))

/-- `get_line(segment, ctx)`: substitute placeholders into the joined
text, then classify. -/
def get_line (seg : Segment) (ctx : Context) : Context × Except HtmlError Str :=
  classify seg.line seg.mode (renderedText seg.text ctx) ctx

/-! ## Document assembler (`gen_html`) -/

/-- `Range<u32>` as built by the CLI (`start..stop`), values below `u32Mod`.
The field `stop` models Rust's `end`. -/
structure RangeU32 where
  start : Nat
  stop : Nat
deriving DecidableEq

/-- `Range::contains(&x)`: `start ≤ x < stop`. -/
def rangeContains (r : RangeU32) (x : Nat) : Bool := r.start ≤ x && x < r.stop

/-- The streaming loop of `gen_html`: mode-split each whole segment,
classify it, and append the fragment subject to the optional range
filter, with the early `break` once the counter exceeds the range's
upper bound.  Returns the final context and the list of appended
fragments (their concatenation is the document body).  The `segNext p =
none` case models the `text.remove(0)` panic (unreachable, see the
segment nonemptiness theorem). -/
def assemble (range : Option RangeU32) (ctx : Context) :
    List (Nat × List Str) → Context × Except HtmlError (List Str)
  | [] => (ctx, .ok [])
  | p :: rest =>
    match segNext p with
    | none => (ctx, .error .Unknown)
    | some s =>
      match get_line s ctx with
      | (ctx2, .error e) => (ctx2, .error e)
      | (ctx2, .ok frag) =>
        match range with
        | some r =>
          if rangeContains r ctx2.scene then
            match assemble range ctx2 rest with
            | (cf, .ok l) => (cf, .ok (frag :: l))
            | err => err
          else if r.stop < ctx2.scene then (ctx2, .ok [])
          else assemble range ctx2 rest
        | none =>
          match assemble range ctx2 rest with
          | (cf, .ok l) => (cf, .ok (frag :: l))
          | err => err

/-- The document preamble common to both modes. -/
def docOpen : Str :=
  "<html><head><link rel=\"stylesheet\" href=\"../res/style.css\"/></head><body><div class=\"page\">\n".toList

/-- The title/subtitle block emitted when no range filter is active. -/
def titleBlock (title subtitle : Str) : Str :=
  "<div class=\"title\"><h1>".toList ++ title ++ "</h1></div>\n<div class=\"subtitle\"><h2>".toList
    ++ subtitle ++ "</h2></div>\n".toList

def docClose : Str := "</div></body></html>".toList

/-- `gen_html`, from raw input lines to the assembled document text
(file reading/writing is outside the modelled core): consume the first
two whole segments as title and subtitle, then stream the rest through
the classifier. -/
def genHtml (range : Option RangeU32) (raw : List Str) : Except HtmlError Str :=
  match segments (preprocess raw) with
  | [] => .error (.SyntaxError 1 "title".toList "beginning".toList)
  | [_] => .error (.SyntaxError 2 "subtitle".toList "title".toList)
  | t :: st :: rest =>
    let ctx : Context := ⟨0, joinSpace t.2, joinSpace st.2⟩
    let top := if range.isSome then docOpen else docOpen ++ titleBlock ctx.title ctx.subtitle
    match assemble range ctx rest with
    | (_, .error e) => .error e
    | (_, .ok frags) => .ok (top ++ frags.flatten ++ docClose)

/-! ## Observation functions for the specification's properties -/

/-- Specification-side filler-glyph count, following the spec's words:
`max(0, 4 − digits(ordinal))`. -/
def specFillerCount (n : Nat) : Nat := Nat.max 0 (4 - (natToStr n).length)

/-- The ordinals carried by the scene fragments of a classification run:
fold `get_line` over the segments, recording the counter whenever a
classified segment changed it, stopping at the first failure (which
aborts the conversion). -/
def runOrdinals (ctx : Context) : List Segment → List Nat
  | [] => []
  | s :: rest =>
    match get_line s ctx with
    | (_, .error _) => []
    | (ctx2, .ok _) =>
      if ctx2.scene == ctx.scene then runOrdinals ctx2 rest
      else ctx2.scene :: runOrdinals ctx2 rest

/-- The number of accepted scene headings of a run (counter-changing
classifications before the first failure). -/
def sceneChangeCount (ctx : Context) : List Segment → Nat
  | [] => 0
  | s :: rest =>
    match get_line s ctx with
    | (_, .error _) => 0
    | (ctx2, .ok _) =>
      (if ctx2.scene == ctx.scene then 0 else 1) + sceneChangeCount ctx2 rest

/-- End marker of a classification trace: clean end of input, or the
first failure. -/
inductive TraceEnd where
  | done
  | err (e : HtmlError)
deriving DecidableEq

/-- The classification trace of the assembler's input: for each segment,
the fragment produced and the scene counter at classification time
(after `get_line` ran), up to the first failure. -/
def classTrace (ctx : Context) : List (Nat × List Str) → List (Nat × Str) × TraceEnd
  | [] => ([], .done)
  | p :: rest =>
    match segNext p with
    | none => ([], .err .Unknown)
    | some s =>
      match get_line s ctx with
      | (_, .error e) => ([], .err e)
      | (ctx2, .ok f) =>
        let (tr, e) := classTrace ctx2 rest
        ((ctx2.scene, f) :: tr, e)

/-- The range-filtering policy applied to a classification trace:
append a fragment iff its counter lies in `[start, stop)`, stop
consuming (dropping any later failure) once the counter exceeds `stop`. -/
def rangeAssembleSpec (r : RangeU32) : List (Nat × Str) → TraceEnd → Except HtmlError (List Str)
  | [], .done => .ok []
  | [], .err e => .error e
  | (n, f) :: t, e =>
    if rangeContains r n then (rangeAssembleSpec r t e).map (f :: ·)
    else if r.stop < n then .ok []
    else rangeAssembleSpec r t e

/-- Modelled from the spec: the claimed stopping rule, which stops
streaming as soon as the counter *reaches* the range's upper bound
(claim C4's "streaming stops once the counter reaches 3" for the
scene-2 filter `[2,3)`), rather than the code's strict `>` test. -/
def rangeStopClaim (r : RangeU32) : List (Nat × Str) → TraceEnd → Except HtmlError (List Str)
  | [], .done => .ok []
  | [], .err e => .error e
  | (n, f) :: t, e =>
    if r.stop ≤ n then .ok []
    else if rangeContains r n then (rangeStopClaim r t e).map (f :: ·)
    else rangeStopClaim r t e

/-- Adjacent colon-then-whitespace pair anywhere in the string (the part
of the speech pattern that `alex:hello` lacks). -/
def hasColonWS : Str → Bool
  | c1 :: c2 :: rest => (c1 == ':' && isWS c2) || hasColonWS (c2 :: rest)
  | _ => false

/-! ## Numeral-length lemmas -/

theorem natToStrGo_fuel (f : Nat) : ∀ g n, n < f → n < g → natToStrGo f n = natToStrGo g n := by
  induction f with
  | zero => intro g n h; omega
  | succ f ih =>
    intro g n hf hg
    cases g with
    | zero => omega
    | succ g =>
      simp only [natToStrGo]
      by_cases h10 : n < 10
      · simp [h10]
      · have hd : n / 10 < n := Nat.div_lt_self (by omega) (by omega)
        simp only [h10, if_false]
        rw [ih g (n / 10) (by omega) (by omega)]

theorem natToStr_len_le : ∀ n, ∀ k, 1 ≤ k → n < 10 ^ k → (natToStr n).length ≤ k := by
  intro n
  induction n using Nat.strong_induction_on with
  | _ n ih =>
    intro k hk hn
    by_cases h10 : n < 10
    · have : natToStr n = [digitChar n] := by
        simp [natToStr, natToStrGo, h10]
      simp [this]; omega
    · have hk2 : 2 ≤ k := by
        by_contra hc
        have : k = 1 := by omega
        subst this; simp at hn; omega
      have hd : n / 10 < n := Nat.div_lt_self (by omega) (by omega)
      have : natToStr n = natToStrGo n (n / 10) ++ [digitChar (n % 10)] := by
        simp only [natToStr, natToStrGo, h10, if_false]
      rw [this, List.length_append]
      have hfuel : natToStrGo n (n / 10) = natToStr (n / 10) :=
        natToStrGo_fuel n (n / 10 + 1) (n / 10) (by omega) (by omega)
      rw [hfuel]
      have hdiv : n / 10 < 10 ^ (k - 1) := by
        have : n < 10 ^ (k - 1) * 10 := by
          have : 10 ^ (k - 1) * 10 = 10 ^ k := by
            rw [← pow_succ]
            congr 1
            omega
          omega
        exact Nat.div_lt_of_lt_mul (by omega)
      have := ih (n / 10) hd (k - 1) (by omega) hdiv
      simp
      omega

theorem scenePadCount_eq_sub (n : Nat) (h : (natToStr n).length ≤ 4) :
    scenePadCount n = 4 - (natToStr n).length := by
  unfold scenePadCount usizeWrapSub
  have h2 : 4 + usizeMod - (natToStr n).length = (4 - (natToStr n).length) + usizeMod := by
    unfold usizeMod; omega
  rw [h2, Nat.add_mod_right]
  exact Nat.mod_eq_of_lt (by unfold usizeMod; omega)

/-- C1 (amended): for accepted scene headings whose new counter value has
at most four digits (1 ≤ n ≤ 9999) the emitted scene fragment's filler
count `scenePadCount` equals the spec's `max(0, 4 − digits(n))` — in
particular 3 fillers at ordinal 1 and 2 at ordinal 10.  (At ordinal
10000 the `usize` subtraction `4 - len` underflows instead of flooring
at zero; see the counterexample.) -/
theorem c1_scene_padding (n : Nat) (h1 : 1 ≤ n) (h2 : n ≤ 9999) :
    scenePadCount n = specFillerCount n ∧ scenePadCount n = 4 - (natToStr n).length := by
  have hlen : (natToStr n).length ≤ 4 := natToStr_len_le n 4 (by omega) (by omega)
  have := scenePadCount_eq_sub n hlen
  refine ⟨?_, this⟩
  rw [this]
  simp [specFillerCount]

/-- Witness for C1's amended theorem: ordinal 1 gets `4 − 1 = 3` fillers
and ordinal 10 gets 2, matching the spec formula. -/
theorem c1_scene_padding_witness :
    (scenePadCount 1 = specFillerCount 1 ∧ scenePadCount 1 = 3) ∧
      (scenePadCount 10 = specFillerCount 10 ∧ scenePadCount 10 = 2) :=
  ⟨⟨(c1_scene_padding 1 (by decide) (by decide)).1, by decide⟩,
   ⟨(c1_scene_padding 10 (by decide) (by decide)).1, by decide⟩⟩

/-- Counterexample to C1 as stated: at ordinal 10000 the code's filler
count is the wrapped `usize` value `2^64 - 1` (a panic in a debug
build), not the claimed `max(0, 4 − 5) = 0`. -/
theorem c1_counterexample :
    scenePadCount 10000 ≠ specFillerCount 10000 ∧ scenePadCount 10000 = usizeMod - 1 := by
  constructor
  · intro h
    have : scenePadCount 10000 = usizeMod - 1 := by decide
    rw [this] at h
    have : specFillerCount 10000 = 0 := by decide
    rw [this] at h
    exact absurd h (by decide)
  · decide

/-! ## Placeholder substitution, scene round trip, named speech -/

/-- C5 (amended): classification sees the segment's fragments only
through the placeholder-substituted join `renderedText` (so `$title` and
`$subtitle` are replaced everywhere in the joined text before
classification), and a placeholder in the text is indeed substituted
(concrete instance).  The mode token is not part of this substitution —
see the counterexample. -/
theorem c5_substitution :
    (∀ (l : Nat) (m : Str) (ts ts2 : List Str) (ctx : Context),
        renderedText ts ctx = renderedText ts2 ctx →
        get_line ⟨l, m, ts⟩ ctx = get_line ⟨l, m, ts2⟩ ctx) ∧
      get_line ⟨1, "direct".toList, ["$title".toList]⟩ ⟨0, "T".toList, []⟩ =
        (⟨0, "T".toList, []⟩, .ok (divLine "direct".toList "T".toList)) := by
  constructor
  · intro l m ts ts2 ctx h
    unfold get_line
    rw [h]
  · rfl

/-- Witness for C5's amended theorem: the factoring applied at a
concrete input. -/
theorem c5_substitution_witness :
    get_line ⟨1, "direct".toList, ["a".toList, "b".toList]⟩ ⟨0, [], []⟩ =
      get_line ⟨1, "direct".toList, ["a b".toList]⟩ ⟨0, [], []⟩ :=
  c5_substitution.1 1 "direct".toList ["a".toList, "b".toList] ["a b".toList] ⟨0, [], []⟩ rfl

/-- Counterexample to C5 as stated: a `$title` placeholder that is the
segment's first whitespace-delimited token becomes the mode keyword and
is *not* substituted — with title `EXT. X - Y` the segment `$title`
fails classification, while the segment whose text already spells the
title classifies as a scene heading. -/
theorem c5_counterexample :
    get_line ⟨1, "$title".toList, []⟩ ⟨0, "EXT. X - Y".toList, []⟩ =
        (⟨0, "EXT. X - Y".toList, []⟩,
          .error (.SyntaxError 1 "mode declaration".toList "new line".toList)) ∧
      get_line ⟨1, "EXT.".toList, ["X - Y".toList]⟩ ⟨0, "EXT. X - Y".toList, []⟩ =
        (⟨1, "EXT. X - Y".toList, []⟩, .ok (sceneLine 1 "EXT. X - Y".toList)) :=
  ⟨rfl, rfl⟩

/-- C6: the implicit scene heading `EXT. LOC - DAY` and the explicit
`scene EXT. LOC - DAY` classify identically from every context (the
`scene` keyword is stripped from the emitted text), and they are
accepted as a scene heading. -/
theorem c6_scene_round_trip :
    (∀ ctx : Context,
        get_line ⟨1, "EXT.".toList, ["LOC - DAY".toList]⟩ ctx =
          get_line ⟨1, "scene".toList, ["EXT. LOC - DAY".toList]⟩ ctx) ∧
      get_line ⟨1, "EXT.".toList, ["LOC - DAY".toList]⟩ ⟨0, [], []⟩ =
        (⟨1, [], []⟩, .ok (sceneLine 1 "EXT. LOC - DAY".toList)) :=
  ⟨fun _ => rfl, rfl⟩

/-- C7: the three named-speech shapes render as name/speech,
name/parenthetical/speech and name/speech/parenthetical/speech, in
left-to-right order. -/
theorem c7_named_speech :
    get_line ⟨1, "alex:".toList, ["I am speaking hello there".toList]⟩ ⟨0, [], []⟩ =
        (⟨0, [], []⟩,
          .ok ("<div class=\"name\">ALEX</div>\n<div class=\"speech\">I am speaking hello there</div>\n".toList)) ∧
      get_line ⟨1, "alex:".toList, ["(Mood) I am speaking hello there".toList]⟩ ⟨0, [], []⟩ =
        (⟨0, [], []⟩,
          .ok ("<div class=\"name\">ALEX</div>\n<div class=\"parens\">(Mood)</div>\n<div class=\"speech\">I am speaking hello there</div>\n".toList)) ∧
      get_line ⟨1, "alex:".toList, ["I am speaking (Mood) hello there".toList]⟩ ⟨0, [], []⟩ =
        (⟨0, [], []⟩,
          .ok ("<div class=\"name\">ALEX</div>\n<div class=\"speech\">I am speaking</div>\n<div class=\"parens\">(Mood)</div>\n<div class=\"speech\">hello there</div>\n".toList)) :=
  ⟨rfl, rfl, rfl⟩

/-! ## Segment nonemptiness (C9) -/

theorem wholeLoop_ne_nil :
    ∀ (rest : List (Nat × Str)) (line : Nat) (val : Str) (text : List Str)
      (s2 : SegState) (m : Nat) (fr : List Str),
      wholeLoop line val rest text = (s2, some (m, fr)) → fr ≠ [] := by
  intro rest
  induction rest with
  | nil =>
    intro line val text s2 m fr h
    unfold wholeLoop at h
    cases hs : stripSuffixChar '\\' val with
    | none =>
      rw [hs] at h
      simp at h
      obtain ⟨-, -, h2⟩ := h
      rw [← h2]
      simp
    | some strip =>
      rw [hs] at h
      simp at h
  | cons hd tl ih =>
    intro line val text s2 m fr h
    obtain ⟨a, v2⟩ := hd
    unfold wholeLoop at h
    cases hs : stripSuffixChar '\\' val with
    | none =>
      rw [hs] at h
      simp at h
      obtain ⟨-, -, h2⟩ := h
      rw [← h2]
      simp
    | some strip =>
      rw [hs] at h
      simp only at h
      by_cases hv : v2 = sentinel
      · rw [if_pos hv] at h
        simp at h
        obtain ⟨-, -, h2⟩ := h
        rw [← h2]
        simp
      · rw [if_neg hv] at h
        exact ih line v2 (text ++ [trimStr strip]) s2 m fr h

theorem nextWhole_ne_nil (s : SegState) (s2 : SegState) (m : Nat) (fr : List Str)
    (h : nextWhole s = (s2, some (m, fr))) : fr ≠ [] := by
  unfold nextWhole at h
  by_cases ht : s.term
  · rw [if_pos ht] at h; simp at h
  · rw [if_neg ht] at h
    cases hl : s.lines with
    | nil => rw [hl] at h; simp at h
    | cons hd rest =>
      obtain ⟨line, val⟩ := hd
      rw [hl] at h
      simp only at h
      by_cases hv : val = sentinel
      · rw [if_pos hv] at h; simp at h
      · rw [if_neg hv] at h
        exact wholeLoop_ne_nil rest line val [] s2 m fr h

theorem runSegs_ne_nil : ∀ (f : Nat) (s : SegState) (p : Nat × List Str),
    p ∈ runSegs f s → p.2 ≠ [] := by
  intro f
  induction f with
  | zero => intro s p h; simp [runSegs] at h
  | succ f ih =>
    intro s p h
    unfold runSegs at h
    cases hn : nextWhole s with
    | mk s2 o =>
      cases o with
      | none => rw [hn] at h; simp at h
      | some seg =>
        rw [hn] at h
        rw [List.mem_cons] at h
        rcases h with h | h
        · subst h
          exact nextWhole_ne_nil s s2 p.1 p.2 (by rw [hn])
        · exact ih s2 p h

theorem segNext_isSome (p : Nat × List Str) (h : p.2 ≠ []) : (segNext p).isSome := by
  obtain ⟨m, fr⟩ := p
  cases fr with
  | nil => simp at h
  | cons first t =>
    cases hs : splitOnceWS first with
    | none => simp [segNext, hs]
    | some q => simp [segNext, hs]

/-- C9: every whole segment the segmenter yields from any input has at
least one text fragment, so the first-fragment extraction of the mode
splitter (`text.remove(0)`) is always defined. -/
theorem c9_segment_nonempty (raw : List Str) (p : Nat × List Str)
    (h : p ∈ segments (preprocess raw)) : p.2 ≠ [] ∧ (segNext p).isSome := by
  have h1 : p.2 ≠ [] := runSegs_ne_nil _ _ p h
  exact ⟨h1, segNext_isSome p h1⟩

/-- Witness for C9 at a concrete input. -/
theorem c9_segment_nonempty_witness :
    (1, ["a".toList]) ∈ segments (preprocess ["a".toList]) ∧
      ((1, ["a".toList]) : Nat × List Str).2 ≠ [] ∧ (segNext (1, ["a".toList])).isSome := by
  have hm : (1, ["a".toList]) ∈ segments (preprocess ["a".toList]) := by decide
  exact ⟨hm, c9_segment_nonempty ["a".toList] (1, ["a".toList]) hm⟩

/-! ## Missing title/subtitle (C8) -/

/-- C8: with fewer than two whole segments the conversion fails with the
structural missing-title or missing-subtitle error before any segment is
classified, and produces no document. -/
theorem c8_structural_error (raw : List Str) (r : Option RangeU32)
    (h : (segments (preprocess raw)).length < 2) :
    genHtml r raw = .error (.SyntaxError 1 "title".toList "beginning".toList) ∨
      genHtml r raw = .error (.SyntaxError 2 "subtitle".toList "title".toList) := by
  cases hs : segments (preprocess raw) with
  | nil =>
    left
    unfold genHtml
    rw [hs]
  | cons a t =>
    cases t with
    | nil =>
      right
      unfold genHtml
      rw [hs]
    | cons b t2 =>
      rw [hs] at h
      simp at h
      omega

/-- Witness for C8: the empty input. -/
theorem c8_structural_error_witness :
    (segments (preprocess [])).length < 2 ∧
      (genHtml none [] = .error (.SyntaxError 1 "title".toList "beginning".toList) ∨
        genHtml none [] = .error (.SyntaxError 2 "subtitle".toList "title".toList)) :=
  ⟨by decide, c8_structural_error [] none (by decide)⟩

/-! ## The speech pattern needs whitespace after a colon (C10) -/

theorem hasColonWS_cons (c : Char) (t : Str) (h : hasColonWS t = true) :
    hasColonWS (c :: t) = true := by
  cases t with
  | nil => simp [hasColonWS] at h
  | cons d t2 =>
    unfold hasColonWS
    rw [h]
    simp

theorem hasColonWS_drop : ∀ (n : Nat) (s : Str), hasColonWS (s.drop n) = true → hasColonWS s = true := by
  intro n
  induction n with
  | zero => intro s h; simpa using h
  | succ n ih =>
    intro s h
    cases s with
    | nil => simp [hasColonWS] at h
    | cons c t => exact hasColonWS_cons c t (ih t (by simpa using h))

theorem afterColon_head (rest : Str) (h : afterColon rest = true) :
    ∃ c r2, rest = c :: r2 ∧ isWS c = true := by
  cases rest with
  | nil => simp [afterColon] at h
  | cons c r2 =>
    unfold afterColon at h
    rw [Bool.and_eq_true] at h
    exact ⟨c, r2, rfl, h.1⟩

theorem hasColonWS_colon (rest : Str) (h : afterColon rest = true) :
    hasColonWS (':' :: rest) = true := by
  obtain ⟨c, r2, he, hw⟩ := afterColon_head rest h
  subst he
  unfold hasColonWS
  simp [hw]

theorem speechAfterName_colonWS (cs : Str) (h : speechAfterName cs = true) :
    hasColonWS cs = true := by
  unfold speechAfterName at h
  split at h
  · exact hasColonWS_colon _ h
  · refine hasColonWS_cons _ _ (hasColonWS_cons _ _ (hasColonWS_cons _ _ (hasColonWS_cons _ _
      (hasColonWS_cons _ _ (hasColonWS_cons _ _ (hasColonWS_cons _ _ ?_))))))
    exact hasColonWS_colon _ h
  · refine hasColonWS_cons _ _ (hasColonWS_cons _ _ (hasColonWS_cons _ _ (hasColonWS_cons _ _
      (hasColonWS_cons _ _ (hasColonWS_cons _ _ (hasColonWS_cons _ _ ?_))))))
    exact hasColonWS_colon _ h
  · exact absurd h (by simp)

theorem speechMatchAt_colonWS (cs : Str) (h : speechMatchAt cs = true) :
    hasColonWS cs = true := by
  unfold speechMatchAt at h
  rw [Bool.and_eq_true] at h
  exact hasColonWS_drop _ cs (speechAfterName_colonWS _ h.2)

theorem speechIsMatch_colonWS : ∀ cs : Str, speechIsMatch cs = true → hasColonWS cs = true := by
  intro cs
  induction cs with
  | nil => intro h; simp [speechIsMatch] at h
  | cons c t ih =>
    intro h
    unfold speechIsMatch at h
    rw [Bool.or_eq_true] at h
    rcases h with h | h
    · exact speechMatchAt_colonWS _ h
    · exact hasColonWS_cons c t (ih h)

/-- The fixed explicit mode keyword set. -/
def modeKeywords : List Str :=
  ["montage".toList, "mon-end".toList, "TODO".toList, "direct".toList, "parens".toList,
   "speech".toList, "subhead".toList, "trans".toList, "chyron".toList, "scene".toList]

/-- C10: a segment whose mode token is not a keyword and whose re-joined
whole text has no whitespace directly after any colon is not named
speech (the speech pattern requires whitespace after the colon); if the
whole text also matches neither the scene-heading nor the all-caps
header pattern, classification fails with the mode-declaration syntax
error. -/
theorem c10_colon_needs_ws (l : Nat) (m : Str) (ts : List Str) (ctx : Context)
    (hm : m ∉ modeKeywords)
    (hcw : hasColonWS (trimStr (m ++ ' ' :: renderedText ts ctx)) = false)
    (hsc : sceneMatch (trimStr (m ++ ' ' :: renderedText ts ctx)) = false)
    (hhd : headMatch (trimStr (m ++ ' ' :: renderedText ts ctx)) = false) :
    get_line ⟨l, m, ts⟩ ctx =
      (ctx, .error (.SyntaxError l "mode declaration".toList "new line".toList)) := by
  have hne : ∀ kw, kw ∈ modeKeywords → (m == kw) = false := by
    intro kw hkw
    exact beq_eq_false_iff_ne.mpr (fun he => hm (he ▸ hkw))
  have h1 := hne "montage".toList (by simp [modeKeywords])
  have h2 := hne "mon-end".toList (by simp [modeKeywords])
  have h3 := hne "TODO".toList (by simp [modeKeywords])
  have h4 := hne "direct".toList (by simp [modeKeywords])
  have h5 := hne "parens".toList (by simp [modeKeywords])
  have h6 := hne "speech".toList (by simp [modeKeywords])
  have h7 := hne "subhead".toList (by simp [modeKeywords])
  have h8 := hne "trans".toList (by simp [modeKeywords])
  have h9 := hne "chyron".toList (by simp [modeKeywords])
  have h10 := hne "scene".toList (by simp [modeKeywords])
  have hsp : speechIsMatch (trimStr (m ++ ' ' :: renderedText ts ctx)) = false := by
    cases hval : speechIsMatch (trimStr (m ++ ' ' :: renderedText ts ctx)) with
    | false => rfl
    | true => exact absurd (speechIsMatch_colonWS _ hval) (by rw [hcw]; simp)
  unfold get_line classify
  simp only [h1, h2, h3, h4, h5, h6, h7, h8, h9, h10, Bool.false_and, Bool.false_or,
    Bool.or_self, if_false, hsc, hhd, hsp]
  simp

/-- Witness for C10: the segment `alex:hello`. -/
theorem c10_colon_needs_ws_witness :
    get_line ⟨1, "alex:hello".toList, []⟩ ⟨0, [], []⟩ =
      (⟨0, [], []⟩, .error (.SyntaxError 1 "mode declaration".toList "new line".toList)) :=
  c10_colon_needs_ws 1 "alex:hello".toList [] ⟨0, [], []⟩ (by decide) (by decide) (by decide)
    (by decide)

/-! ## Scene counter evolution (C3) -/

/-- The property that a classification result's counter is unchanged or
incremented once (mod `u32Mod`). -/
def SceneStep (ctx : Context) (p : Context × Except HtmlError Str) : Prop :=
  p.1.scene = ctx.scene ∨ p.1.scene = (ctx.scene + 1) % u32Mod

theorem sceneStep_ite (ctx : Context) (c : Prop) [Decidable c]
    (a b : Context × Except HtmlError Str) (ha : SceneStep ctx a) (hb : SceneStep ctx b) :
    SceneStep ctx (if c then a else b) := by
  by_cases h : c
  · rwa [if_pos h]
  · rwa [if_neg h]

theorem get_line_scene_step (s : Segment) (ctx : Context) :
    (get_line s ctx).1.scene = ctx.scene ∨
      (get_line s ctx).1.scene = (ctx.scene + 1) % u32Mod := by
  show SceneStep ctx (get_line s ctx)
  unfold get_line classify
  repeat
    first
      | exact Or.inl rfl
      | exact Or.inr rfl
      | apply sceneStep_ite

theorem runOrdinals_cons_ok (s : Segment) (rest : List Segment) (ctx ctx2 : Context) (f : Str)
    (hg : get_line s ctx = (ctx2, .ok f)) :
    runOrdinals ctx (s :: rest) =
      if ctx2.scene == ctx.scene then runOrdinals ctx2 rest
      else ctx2.scene :: runOrdinals ctx2 rest := by
  conv_lhs => rw [runOrdinals]
  rw [hg]

theorem runOrdinals_cons_err (s : Segment) (rest : List Segment) (ctx ctx2 : Context)
    (e : HtmlError) (hg : get_line s ctx = (ctx2, .error e)) :
    runOrdinals ctx (s :: rest) = [] := by
  conv_lhs => rw [runOrdinals]
  rw [hg]

theorem sceneChangeCount_cons_ok (s : Segment) (rest : List Segment) (ctx ctx2 : Context)
    (f : Str) (hg : get_line s ctx = (ctx2, .ok f)) :
    sceneChangeCount ctx (s :: rest) =
      (if ctx2.scene == ctx.scene then 0 else 1) + sceneChangeCount ctx2 rest := by
  conv_lhs => rw [sceneChangeCount]
  rw [hg]

theorem sceneChangeCount_cons_err (s : Segment) (rest : List Segment) (ctx ctx2 : Context)
    (e : HtmlError) (hg : get_line s ctx = (ctx2, .error e)) :
    sceneChangeCount ctx (s :: rest) = 0 := by
  conv_lhs => rw [sceneChangeCount]
  rw [hg]



theorem runOrdinals_general :
    ∀ (segs : List Segment) (ctx : Context),
      ctx.scene + sceneChangeCount ctx segs < u32Mod →
      runOrdinals ctx segs = List.range' (ctx.scene + 1) (sceneChangeCount ctx segs) := by
  intro segs
  induction segs with
  | nil => intro ctx h; simp [runOrdinals, sceneChangeCount]
  | cons s rest ih =>
    intro ctx h
    cases hg : get_line s ctx with
    | mk ctx2 r =>
      cases r with
      | error e =>
        rw [runOrdinals_cons_err s rest ctx ctx2 e hg,
          sceneChangeCount_cons_err s rest ctx ctx2 e hg]
        simp
      | ok f =>
        rw [runOrdinals_cons_ok s rest ctx ctx2 f hg,
          sceneChangeCount_cons_ok s rest ctx ctx2 f hg]
        rw [sceneChangeCount_cons_ok s rest ctx ctx2 f hg] at h
        cases hb : (ctx2.scene == ctx.scene) with
        | true =>
          have he : ctx2.scene = ctx.scene := eq_of_beq hb
          simp only [hb] at h ⊢
          simp only [if_true, Nat.zero_add] at h ⊢
          rw [ih ctx2 (by rw [he]; omega), he]
        | false =>
          have hne : ctx2.scene ≠ ctx.scene := ne_of_beq_false hb
          simp only [hb] at h ⊢
          simp only [Bool.false_eq_true, if_false] at h ⊢
          have hstep : ctx2.scene = (ctx.scene + 1) % u32Mod := by
            rcases get_line_scene_step s ctx with hh | hh <;> rw [hg] at hh
            · exact absurd hh hne
            · exact hh
          have hlt : ctx.scene + 1 < u32Mod := by omega
          have hc2 : ctx2.scene = ctx.scene + 1 := by rw [hstep]; exact Nat.mod_eq_of_lt hlt
          rw [ih ctx2 (by rw [hc2]; omega), hc2]
          rw [Nat.add_comm 1 (sceneChangeCount ctx2 rest), List.range'_succ]

/-- A concrete always-accepted scene segment (`scene INT. A - B`). -/
def segSceneINT : Segment := ⟨1, "scene".toList, ["INT. A - B".toList]⟩

theorem get_line_segSceneINT (c : Nat) :
    get_line segSceneINT ⟨c, [], []⟩ =
      (⟨(c + 1) % u32Mod, [], []⟩,
        .ok (sceneLine ((c + 1) % u32Mod) "INT. A - B".toList)) := rfl

theorem zero_mem_runOrdinals :
    ∀ (n c : Nat), c < u32Mod → c + n = u32Mod →
      0 ∈ runOrdinals ⟨c, [], []⟩ (List.replicate n segSceneINT) := by
  intro n
  induction n with
  | zero => intro c h1 h2; omega
  | succ n ih =>
    intro c h1 h2
    rw [List.replicate_succ]
    rw [runOrdinals_cons_ok segSceneINT _ ⟨c, [], []⟩ ⟨(c + 1) % u32Mod, [], []⟩ _
      (get_line_segSceneINT c)]
    by_cases hc : c + 1 = u32Mod
    · have hz : ((c + 1) % u32Mod : Nat) = 0 := by rw [hc]; exact Nat.mod_self _
      simp only [hz]
      have hcc : c + 1 = 4294967296 := hc
      have hif : ((0 : Nat) == c) = false := beq_eq_false_iff_ne.mpr (by omega)
      rw [hif]
      simp only [Bool.false_eq_true, if_false]
      exact List.mem_cons_self _ _
    · have hm : ((c + 1) % u32Mod : Nat) = c + 1 := Nat.mod_eq_of_lt (by omega)
      simp only [hm]
      have hif : ((c + 1 : Nat) == c) = false := beq_eq_false_iff_ne.mpr (by omega)
      rw [hif]
      simp only [Bool.false_eq_true, if_false]
      exact List.mem_cons_of_mem _ (ih (c + 1) (by omega) (by omega))

/-- C3 (amended): from the initial counter 0, as long as the number of
accepted scene headings stays below `2^32`, the ordinals carried by the
emitted scene fragments are exactly the strict sequence `1, 2, 3, ...`
of length the number of accepted scene headings, with no increment on a
failed classification.  (The `u32` counter wraps at `2^32`; see the
counterexample.) -/
theorem c3_scene_ordinals (t st : Str) (segs : List Segment)
    (h : sceneChangeCount ⟨0, t, st⟩ segs < u32Mod) :
    runOrdinals ⟨0, t, st⟩ segs =
      List.range' 1 (sceneChangeCount ⟨0, t, st⟩ segs) := by
  have hg := runOrdinals_general segs ⟨0, t, st⟩ (by simpa using h)
  simpa using hg

/-- Witness for C3's amended theorem: two accepted scene headings give
ordinals `[1, 2]`. -/
theorem c3_scene_ordinals_witness :
    sceneChangeCount ⟨0, [], []⟩ [segSceneINT, segSceneINT] < u32Mod ∧
      runOrdinals ⟨0, [], []⟩ [segSceneINT, segSceneINT] =
        List.range' 1 (sceneChangeCount ⟨0, [], []⟩ [segSceneINT, segSceneINT]) :=
  ⟨by decide, c3_scene_ordinals [] [] _ (by decide)⟩

/-- Counterexample to C3 as stated (over *every* run): a run of `2^32`
accepted scene headings wraps the 32-bit counter, so ordinal `0` is
emitted and the ordinals are not the strict sequence `1, 2, 3, ...`. -/
theorem c3_counterexample :
    runOrdinals ⟨0, [], []⟩ (List.replicate u32Mod segSceneINT) ≠
      List.range' 1 (sceneChangeCount ⟨0, [], []⟩ (List.replicate u32Mod segSceneINT)) := by
  intro h
  have h0 : (0 : Nat) ∈ runOrdinals ⟨0, [], []⟩ (List.replicate u32Mod segSceneINT) :=
    zero_mem_runOrdinals u32Mod 0 (by decide) (by omega)
  rw [h] at h0
  have h1 := (List.mem_range'_1.mp h0).1
  omega

/-! ## Range filtering (C4) -/

theorem assemble_cons_none (range : Option RangeU32) (ctx : Context) (p : Nat × List Str)
    (rest : List (Nat × List Str)) (hsn : segNext p = none) :
    assemble range ctx (p :: rest) = (ctx, .error .Unknown) := by
  conv_lhs => rw [assemble]
  rw [hsn]

theorem classTrace_cons_none (ctx : Context) (p : Nat × List Str)
    (rest : List (Nat × List Str)) (hsn : segNext p = none) :
    classTrace ctx (p :: rest) = ([], .err .Unknown) := by
  conv_lhs => rw [classTrace]
  rw [hsn]

theorem assemble_cons_err (range : Option RangeU32) (ctx ctx2 : Context) (p : Nat × List Str)
    (rest : List (Nat × List Str)) (s : Segment) (e : HtmlError)
    (hsn : segNext p = some s) (hg : get_line s ctx = (ctx2, .error e)) :
    assemble range ctx (p :: rest) = (ctx2, .error e) := by
  conv_lhs => rw [assemble]
  rw [hsn]
  dsimp only
  rw [hg]

theorem classTrace_cons_err (ctx ctx2 : Context) (p : Nat × List Str)
    (rest : List (Nat × List Str)) (s : Segment) (e : HtmlError)
    (hsn : segNext p = some s) (hg : get_line s ctx = (ctx2, .error e)) :
    classTrace ctx (p :: rest) = ([], .err e) := by
  conv_lhs => rw [classTrace]
  rw [hsn]
  dsimp only
  rw [hg]

theorem assemble_cons_ok_range (r : RangeU32) (ctx ctx2 : Context) (p : Nat × List Str)
    (rest : List (Nat × List Str)) (s : Segment) (f : Str)
    (hsn : segNext p = some s) (hg : get_line s ctx = (ctx2, .ok f)) :
    assemble (some r) ctx (p :: rest) =
      if rangeContains r ctx2.scene then
        match assemble (some r) ctx2 rest with
        | (cf, .ok l) => (cf, .ok (f :: l))
        | err => err
      else if r.stop < ctx2.scene then (ctx2, .ok [])
      else assemble (some r) ctx2 rest := by
  conv_lhs => rw [assemble]
  rw [hsn]
  dsimp only
  rw [hg]

theorem classTrace_cons_ok (ctx ctx2 : Context) (p : Nat × List Str)
    (rest : List (Nat × List Str)) (s : Segment) (f : Str)
    (hsn : segNext p = some s) (hg : get_line s ctx = (ctx2, .ok f)) :
    classTrace ctx (p :: rest) =
      ((ctx2.scene, f) :: (classTrace ctx2 rest).1, (classTrace ctx2 rest).2) := by
  conv_lhs => rw [classTrace]
  rw [hsn]
  dsimp only
  rw [hg]

theorem except_map_match (q : Context × Except HtmlError (List Str)) (f : Str) :
    (match q with
      | (cf, .ok l) => (cf, Except.ok (f :: l))
      | err => err).2 = (q.2).map (f :: ·) := by
  rcases q with ⟨cf, l | l⟩ <;> rfl

/-- C4 (amended): with a range filter the assembler's output refines the
trace-level policy `rangeAssembleSpec`: a classified fragment is
appended iff the scene counter at its classification time lies in
`[start, stop)`, and consumption stops (dropping even later failures)
once the counter strictly exceeds `stop` — not already when it reaches
`stop`; see the counterexample. -/
theorem c4_range_filter (r : RangeU32) :
    ∀ (ps : List (Nat × List Str)) (ctx : Context),
      (assemble (some r) ctx ps).2 =
        rangeAssembleSpec r (classTrace ctx ps).1 (classTrace ctx ps).2 := by
  intro ps
  induction ps with
  | nil => intro ctx; rfl
  | cons p rest ih =>
    intro ctx
    cases hsn : segNext p with
    | none =>
      rw [assemble_cons_none (some r) ctx p rest hsn, classTrace_cons_none ctx p rest hsn]
      rfl
    | some s =>
      cases hg : get_line s ctx with
      | mk ctx2 res =>
        cases res with
        | error e =>
          rw [assemble_cons_err (some r) ctx ctx2 p rest s e hsn hg,
            classTrace_cons_err ctx ctx2 p rest s e hsn hg]
          rfl
        | ok f =>
          rw [assemble_cons_ok_range r ctx ctx2 p rest s f hsn hg,
            classTrace_cons_ok ctx ctx2 p rest s f hsn hg]
          cases hc : rangeContains r ctx2.scene with
          | true =>
            simp only [hc, if_true]
            rw [show rangeAssembleSpec r ((ctx2.scene, f) :: (classTrace ctx2 rest).1)
                  (classTrace ctx2 rest).2 =
                if rangeContains r ctx2.scene then
                  (rangeAssembleSpec r (classTrace ctx2 rest).1 (classTrace ctx2 rest).2).map
                    (f :: ·)
                else if r.stop < ctx2.scene then .ok []
                else rangeAssembleSpec r (classTrace ctx2 rest).1 (classTrace ctx2 rest).2
              from rfl]
            rw [hc]
            simp only [if_true]
            rw [except_map_match (assemble (some r) ctx2 rest) f]
            rw [ih ctx2]
          | false =>
            simp only [hc, Bool.false_eq_true, if_false]
            rw [show rangeAssembleSpec r ((ctx2.scene, f) :: (classTrace ctx2 rest).1)
                  (classTrace ctx2 rest).2 =
                if rangeContains r ctx2.scene then
                  (rangeAssembleSpec r (classTrace ctx2 rest).1 (classTrace ctx2 rest).2).map
                    (f :: ·)
                else if r.stop < ctx2.scene then .ok []
                else rangeAssembleSpec r (classTrace ctx2 rest).1 (classTrace ctx2 rest).2
              from rfl]
            rw [hc]
            simp only [Bool.false_eq_true, if_false]
            by_cases hlt : r.stop < ctx2.scene
            · rw [if_pos hlt, if_pos hlt]
            · rw [if_neg hlt, if_neg hlt, ih ctx2]

/-- A document with three scenes followed by an invalid segment. -/
def c4Lines : List Str :=
  ["T".toList, "ST".toList, "INT. A - B".toList, "INT. A - B".toList, "INT. A - B".toList,
   "bad bad".toList]

/-- Counterexample to C4's stopping clause as stated: with the scene-2
filter `[2,3)` over a three-scene document, the code does *not* stop
once the counter reaches 3 — it classifies the segment after the third
scene heading and aborts on its syntax error (line 6), while the
claimed stop-on-reaching-3 rule would have ended streaming with exactly
the scene-2 fragment and no error. -/
theorem c4_counterexample :
    genHtml (some ⟨2, 3⟩) c4Lines =
        .error (.SyntaxError 6 "mode declaration".toList "new line".toList) ∧
      rangeStopClaim ⟨2, 3⟩
          (classTrace ⟨0, "T".toList, "ST".toList⟩ (List.drop 2 (segments (preprocess c4Lines)))).1
          (classTrace ⟨0, "T".toList, "ST".toList⟩ (List.drop 2 (segments (preprocess c4Lines)))).2 =
        .ok [sceneLine 2 "INT. A - B".toList] :=
  ⟨rfl, rfl⟩

/-! ## Sentinel truncation (C2) -/

theorem runSegs_term (f : Nat) (s : SegState) (h : s.term = true) : runSegs f s = [] := by
  cases f with
  | zero => rfl
  | succ f =>
    conv_lhs => rw [runSegs]
    rw [show nextWhole s = (s, none) by rw [nextWhole, if_pos h]]

theorem runSegs_succ_some (f : Nat) (s s2 : SegState) (seg : Nat × List Str)
    (h : nextWhole s = (s2, some seg)) :
    runSegs (f + 1) s = seg :: runSegs f s2 := by
  conv_lhs => rw [runSegs]
  rw [h]

theorem runSegs_succ_none (f : Nat) (s s2 : SegState)
    (h : nextWhole s = (s2, none)) :
    runSegs (f + 1) s = [] := by
  conv_lhs => rw [runSegs]
  rw [h]

theorem wholeLoop_eq_none (n : Nat) (v : Str) (rest : List (Nat × Str)) (t : List Str)
    (hs : stripSuffixChar '\\' v = none) :
    wholeLoop n v rest t = (⟨rest, false⟩, some (n + 1, t ++ [v])) := by
  conv_lhs => rw [wholeLoop]
  rw [hs]

theorem wholeLoop_eq_nil (n : Nat) (v strip : Str) (t : List Str)
    (hs : stripSuffixChar '\\' v = some strip) :
    wholeLoop n v [] t = (⟨[], false⟩, none) := by
  conv_lhs => rw [wholeLoop]
  rw [hs]

theorem wholeLoop_eq_sent (n m : Nat) (v strip v2 : Str) (rest2 : List (Nat × Str)) (t : List Str)
    (hs : stripSuffixChar '\\' v = some strip) (hv : v2 = sentinel) :
    wholeLoop n v ((m, v2) :: rest2) t = (⟨rest2, true⟩, some (n + 1, t ++ [trimStr strip])) := by
  conv_lhs => rw [wholeLoop]
  rw [hs]
  dsimp only
  rw [if_pos hv]

theorem wholeLoop_eq_cont (n m : Nat) (v strip v2 : Str) (rest2 : List (Nat × Str)) (t : List Str)
    (hs : stripSuffixChar '\\' v = some strip) (hv : ¬v2 = sentinel) :
    wholeLoop n v ((m, v2) :: rest2) t = wholeLoop n v2 rest2 (t ++ [trimStr strip]) := by
  conv_lhs => rw [wholeLoop]
  rw [hs]
  dsimp only
  rw [if_neg hv]

theorem nextWhole_cons (m : Nat) (v : Str) (rest : List (Nat × Str)) (hv : ¬v = sentinel) :
    nextWhole ⟨(m, v) :: rest, false⟩ = wholeLoop m v rest [] := by
  rw [nextWhole]
  simp only [Bool.false_eq_true, if_false]
  rw [if_neg hv]

theorem nextWhole_sent (m : Nat) (v : Str) (rest : List (Nat × Str)) (hv : v = sentinel) :
    nextWhole ⟨(m, v) :: rest, false⟩ = (⟨rest, false⟩, none) := by
  rw [nextWhole]
  simp only [Bool.false_eq_true, if_false]
  rw [if_pos hv]

theorem wholeLoop_lines_le :
    ∀ (rest : List (Nat × Str)) (n : Nat) (v : Str) (t : List Str) (s2 : SegState)
      (r : Option (Nat × List Str)),
      wholeLoop n v rest t = (s2, r) → s2.lines.length ≤ rest.length := by
  intro rest
  induction rest with
  | nil =>
    intro n v t s2 r h
    cases hs : stripSuffixChar '\\' v with
    | none => rw [wholeLoop_eq_none n v [] t hs] at h; cases h; simp
    | some strip => rw [wholeLoop_eq_nil n v strip t hs] at h; cases h; simp
  | cons hd rest2 ih =>
    intro n v t s2 r h
    obtain ⟨m, v2⟩ := hd
    cases hs : stripSuffixChar '\\' v with
    | none =>
      rw [wholeLoop_eq_none n v ((m, v2) :: rest2) t hs] at h
      cases h
      simp
    | some strip =>
      by_cases hv : v2 = sentinel
      · rw [wholeLoop_eq_sent n m v strip v2 rest2 t hs hv] at h
        cases h
        simp
      · rw [wholeLoop_eq_cont n m v strip v2 rest2 t hs hv] at h
        have := ih n v2 (t ++ [trimStr strip]) s2 r h
        simp
        omega

theorem nextWhole_consumes (s s2 : SegState) (seg : Nat × List Str)
    (h : nextWhole s = (s2, some seg)) : s2.lines.length < s.lines.length := by
  unfold nextWhole at h
  by_cases ht : s.term
  · rw [if_pos ht] at h; simp at h
  · rw [if_neg ht] at h
    cases hl : s.lines with
    | nil => rw [hl] at h; simp at h
    | cons hd rest =>
      obtain ⟨m, v⟩ := hd
      rw [hl] at h
      dsimp only at h
      by_cases hv : v = sentinel
      · rw [if_pos hv] at h; simp at h
      · rw [if_neg hv] at h
        have := wholeLoop_lines_le rest m v [] s2 (some seg) h
        simp
        omega

theorem runSegs_fuel :
    ∀ (f g : Nat) (s : SegState), s.lines.length < f → s.lines.length < g →
      runSegs f s = runSegs g s := by
  intro f
  induction f with
  | zero => intro g s h; omega
  | succ f ih =>
    intro g s hf hg
    cases g with
    | zero => omega
    | succ g =>
      cases hn : nextWhole s with
      | mk s2 o =>
        cases o with
        | none => rw [runSegs_succ_none f s s2 hn, runSegs_succ_none g s s2 hn]
        | some seg =>
          rw [runSegs_succ_some f s s2 seg hn, runSegs_succ_some g s s2 seg hn]
          have hlt := nextWhole_consumes s s2 seg hn
          rw [ih g s2 (by omega) (by omega)]

theorem wholeLoop_indep :
    ∀ (P1 : List (Nat × Str)) (k n : Nat) (v : Str) (t : List Str) (Q Q2 : List (Nat × Str)),
      (∃ seg P2, P2.length ≤ P1.length ∧
        wholeLoop n v (P1 ++ (k, sentinel) :: Q) t = (⟨P2 ++ (k, sentinel) :: Q, false⟩, some seg) ∧
        wholeLoop n v (P1 ++ (k, sentinel) :: Q2) t =
          (⟨P2 ++ (k, sentinel) :: Q2, false⟩, some seg))
      ∨ (∃ seg s2 s3,
          wholeLoop n v (P1 ++ (k, sentinel) :: Q) t = (s2, some seg) ∧
          wholeLoop n v (P1 ++ (k, sentinel) :: Q2) t = (s3, some seg) ∧
          s2.term = true ∧ s3.term = true) := by
  intro P1
  induction P1 with
  | nil =>
    intro k n v t Q Q2
    cases hs : stripSuffixChar '\\' v with
    | none =>
      left
      exact ⟨(n + 1, t ++ [v]), [], by simp,
        wholeLoop_eq_none n v ((k, sentinel) :: Q) t hs,
        wholeLoop_eq_none n v ((k, sentinel) :: Q2) t hs⟩
    | some strip =>
      right
      exact ⟨(n + 1, t ++ [trimStr strip]), ⟨Q, true⟩, ⟨Q2, true⟩,
        wholeLoop_eq_sent n k v strip sentinel Q t hs rfl,
        wholeLoop_eq_sent n k v strip sentinel Q2 t hs rfl, rfl, rfl⟩
  | cons hd P1t ih =>
    intro k n v t Q Q2
    obtain ⟨m, v2⟩ := hd
    cases hs : stripSuffixChar '\\' v with
    | none =>
      left
      exact ⟨(n + 1, t ++ [v]), (m, v2) :: P1t, by simp,
        wholeLoop_eq_none n v (((m, v2) :: P1t) ++ (k, sentinel) :: Q) t hs,
        wholeLoop_eq_none n v (((m, v2) :: P1t) ++ (k, sentinel) :: Q2) t hs⟩
    | some strip =>
      by_cases hv : v2 = sentinel
      · right
        exact ⟨(n + 1, t ++ [trimStr strip]), ⟨P1t ++ (k, sentinel) :: Q, true⟩,
          ⟨P1t ++ (k, sentinel) :: Q2, true⟩,
          wholeLoop_eq_sent n m v strip v2 (P1t ++ (k, sentinel) :: Q) t hs hv,
          wholeLoop_eq_sent n m v strip v2 (P1t ++ (k, sentinel) :: Q2) t hs hv, rfl, rfl⟩
      · rw [show ((m, v2) :: P1t) ++ (k, sentinel) :: Q = (m, v2) :: (P1t ++ (k, sentinel) :: Q)
          from rfl]
        rw [show ((m, v2) :: P1t) ++ (k, sentinel) :: Q2 = (m, v2) :: (P1t ++ (k, sentinel) :: Q2)
          from rfl]
        rw [wholeLoop_eq_cont n m v strip v2 (P1t ++ (k, sentinel) :: Q) t hs hv]
        rw [wholeLoop_eq_cont n m v strip v2 (P1t ++ (k, sentinel) :: Q2) t hs hv]
        rcases ih k n v2 (t ++ [trimStr strip]) Q Q2 with ⟨seg, P2, hle, h1, h2⟩ | hr
        · left
          exact ⟨seg, P2, by simp; omega, h1, h2⟩
        · right
          exact hr

theorem runSegs_indep :
    ∀ (f k : Nat) (P Q Q2 : List (Nat × Str)),
      runSegs f ⟨P ++ (k, sentinel) :: Q, false⟩ = runSegs f ⟨P ++ (k, sentinel) :: Q2, false⟩ := by
  intro f
  induction f with
  | zero => intro k P Q Q2; rfl
  | succ f ih =>
    intro k P Q Q2
    cases P with
    | nil =>
      simp only [List.nil_append]
      rw [runSegs_succ_none f _ _ (nextWhole_sent k sentinel Q rfl)]
      rw [runSegs_succ_none f _ _ (nextWhole_sent k sentinel Q2 rfl)]
    | cons hd P1 =>
      obtain ⟨m, v⟩ := hd
      simp only [List.cons_append]
      by_cases hv : v = sentinel
      · rw [runSegs_succ_none f _ _ (nextWhole_sent m v _ hv)]
        rw [runSegs_succ_none f _ _ (nextWhole_sent m v _ hv)]
      · have hnw1 := nextWhole_cons m v (P1 ++ (k, sentinel) :: Q) hv
        have hnw2 := nextWhole_cons m v (P1 ++ (k, sentinel) :: Q2) hv
        rcases wholeLoop_indep P1 k m v [] Q Q2 with ⟨seg, P2, hle, h1, h2⟩ | ⟨seg, s2, s3, h1, h2, ht2, ht3⟩
        · rw [runSegs_succ_some f _ _ seg (by rw [hnw1, h1]),
            runSegs_succ_some f _ _ seg (by rw [hnw2, h2])]
          rw [ih k P2 Q Q2]
        · rw [runSegs_succ_some f _ _ seg (by rw [hnw1, h1]),
            runSegs_succ_some f _ _ seg (by rw [hnw2, h2])]
          rw [runSegs_term f s2 ht2, runSegs_term f s3 ht3]


theorem enumLines_append :
    ∀ (a b : List Str) (i : Nat),
      enumLines i (a ++ b) = enumLines i a ++ enumLines (i + a.length) b := by
  intro a
  induction a with
  | nil => intro b i; simp [enumLines]
  | cons x t ih =>
    intro b i
    rw [List.cons_append]
    rw [show enumLines i (x :: (t ++ b)) = (i, x) :: enumLines (i + 1) (t ++ b) from rfl]
    rw [show enumLines i (x :: t) = (i, x) :: enumLines (i + 1) t from rfl]
    rw [ih b (i + 1), List.cons_append]
    have harith : i + 1 + t.length = i + (x :: t).length := by simp; omega
    rw [harith]

theorem preprocess_append_sent (A B : List Str) (l : Str) (h : processVal l = sentinel) :
    preprocess (A ++ l :: B) =
      preprocess A ++ (A.length, sentinel) ::
        ((enumLines (A.length + 1) B).map trim_ignored).filter (fun p => !p.2.isEmpty) := by
  unfold preprocess
  rw [enumLines_append A (l :: B) 0]
  rw [List.map_append, List.filter_append]
  congr 1
  rw [show (0 + A.length) = A.length by omega]
  rw [show enumLines A.length (l :: B) = (A.length, l) :: enumLines (A.length + 1) B from rfl]
  rw [List.map_cons]
  rw [show trim_ignored (A.length, l) = (A.length, sentinel) by rw [trim_ignored, h]]
  rw [List.filter_cons]
  simp [sentinel]

/-- C2: whatever follows a line that preprocesses to the `***` sentinel
never influences the segment stream: the segments yielded from
`A ++ [sentinel line] ++ B` are the same for every tail `B`, so no
content after the sentinel is ever yielded to the classifier — including
when the sentinel falls inside a backslash-continued segment (the
partial segment is closed and the stream then ends for good). -/
theorem c2_sentinel_truncation (A B B2 : List Str) (l : Str) (h : processVal l = sentinel) :
    segments (preprocess (A ++ l :: B)) = segments (preprocess (A ++ l :: B2)) := by
  rw [preprocess_append_sent A B l h, preprocess_append_sent A B2 l h]
  unfold segments
  set Q1 := ((enumLines (A.length + 1) B).map trim_ignored).filter (fun p => !p.2.isEmpty)
    with hQ1
  set Q2 := ((enumLines (A.length + 1) B2).map trim_ignored).filter (fun p => !p.2.isEmpty)
    with hQ2
  set L1 := preprocess A ++ (A.length, sentinel) :: Q1 with hL1
  set L2 := preprocess A ++ (A.length, sentinel) :: Q2 with hL2
  have h1 : (⟨L1, false⟩ : SegState).lines.length < L1.length + 1 := by simp
  have h2 : (⟨L2, false⟩ : SegState).lines.length < L2.length + 1 := by simp
  have h1b : (⟨L1, false⟩ : SegState).lines.length < max L1.length L2.length + 1 := by
    simp only []
    have := Nat.le_max_left L1.length L2.length
    omega
  have h2b : (⟨L2, false⟩ : SegState).lines.length < max L1.length L2.length + 1 := by
    simp only []
    have := Nat.le_max_right L1.length L2.length
    omega
  rw [runSegs_fuel (L1.length + 1) (max L1.length L2.length + 1) ⟨L1, false⟩ h1 h1b]
  rw [runSegs_fuel (L2.length + 1) (max L1.length L2.length + 1) ⟨L2, false⟩ h2 h2b]
  rw [hL1, hL2]
  exact runSegs_indep (max L1.length L2.length + 1) A.length (preprocess A) Q1 Q2

/-- Witness for C2 at a concrete input: the tails `x` and `y z` after
the sentinel yield identical segment streams. -/
theorem c2_sentinel_truncation_witness :
    processVal "***".toList = sentinel ∧
      segments (preprocess (["a".toList] ++ "***".toList :: ["x".toList])) =
        segments (preprocess (["a".toList] ++ "***".toList :: ["y z".toList])) :=
  ⟨by decide, c2_sentinel_truncation ["a".toList] ["x".toList] ["y z".toList] "***".toList
    (by decide)⟩
